import Mathlib

/-!
# Verification of the face-matching backend

Shallow embedding, in Lean 4, of the core logic of the `flask-backend`
sources:

* `face_recognition_advanced.py` — the `_LRUCache` descriptor cache, the
  duplicate-box suppression `_remove_duplicate_faces`, the pairwise
  comparison `compare_faces`, the bulk matcher `find_matching_photos`, and
  the counting logic of `batch_analyze_photos`;
* `insightface_faiss_service.py` — the per-event embedding store
  (`ingest` / `match`).

Conventions of the embedding:

* Python floats are modelled as real numbers `ℝ` (float rounding is
  abstracted to exact arithmetic); `numpy` square roots become `Real.sqrt`.
* Wall-clock time (`time.time()`) is passed explicitly as a rational
  `now : ℚ` argument.
* Python dicts are modelled as functions to `Option` (for the cache store
  and the per-event index table) or as insertion-ordered association lists
  (for the score-grouping dict, whose iteration order matters).
* Network / model calls (`requests.get`, the face embedder) are modelled by
  passing their result in as an explicit argument; a `try/except` that
  converts every exception into a sentinel value becomes a total function
  returning the sentinel on the malformed branch.
* Python `list.sort` (Timsort) is stable, hence extensionally equal to
  `List.insertionSort` with the corresponding non-strict relation.
-/

namespace VBIS

/-! ## MatchEngine: `compare_faces` (face_recognition_advanced.py:385-435) -/

/-- Result record of `compare_faces` (the Python dict it returns). -/
structure CompareResult where
  is_match : Bool
  distance : ℝ
  similarity : ℝ
  confidence : ℝ
  tolerance_used : ℝ

/-- `np.linalg.norm` of a vector given as a list: `sqrt (Σ xᵢ²)`. -/
noncomputable def l2norm (v : List ℝ) : ℝ :=
  Real.sqrt ((v.map (fun x => x ^ 2)).sum)

/-- `np.dot` of two equal-length vectors. -/
noncomputable def dotList (v w : List ℝ) : ℝ :=
  (List.zipWith (fun a b => a * b) v w).sum

/-- `np.linalg.norm(encoding1 - encoding2)`: Euclidean distance. -/
noncomputable def euclidDist (v w : List ℝ) : ℝ :=
  Real.sqrt ((List.zipWith (fun a b => (a - b) ^ 2) v w).sum)

/-- `AdvancedFaceRecognitionService.compare_faces`.

The Python body raises (and falls into its `except` branch) exactly when
the two descriptors have different lengths — `numpy` then fails either at
the broadcast subtraction or at `np.dot`.  `tolerance` here is the value
after the `if tolerance is None: tolerance = self.tolerance` defaulting at
the top of the `try` block; in the `except` branch the Python
`float(tolerance or self.tolerance)` falls back to the default `0.6` when
the resolved tolerance is `0.0` (Python `or` treats `0.0` as falsy). -/
noncomputable def compare_faces (descriptor1 descriptor2 : List ℝ) (tolerance : ℝ) :
    CompareResult :=
  if descriptor1.length = descriptor2.length then
    let distance := euclidDist descriptor1 descriptor2
    { is_match := decide (distance ≤ tolerance)
      distance := distance
      similarity := dotList descriptor1 descriptor2 / (l2norm descriptor1 * l2norm descriptor2)
      confidence := max 0 (1 - distance / 1.2)
      tolerance_used := tolerance }
  else
    { is_match := false
      distance := 999.0
      similarity := 0.0
      confidence := 0.0
      tolerance_used := if tolerance = 0 then 0.6 else tolerance }

/-! ## MatchEngine: `find_matching_photos` (face_recognition_advanced.py:437-503) -/

/-- A collection item as consumed by `find_matching_photos`: the `id` field
and the (possibly missing or empty) `descriptor` field.  `descriptor = none`
models both a missing `'descriptor'` key and a `None` value; an empty list
models an empty descriptor (all of which are skipped by the Python
`if 'descriptor' not in photo_data or not photo_data['descriptor']` test).
The pass-through metadata fields (`cloudinaryUrl`, `originalName`, …) are
copied verbatim by the Python code and are omitted here. -/
structure Photo where
  id : String
  descriptor : Option (List ℝ)

/-- One entry of the list returned by `find_matching_photos`
(metadata pass-through fields omitted, as in `Photo`). -/
structure MatchedPhoto where
  id : String
  score : ℝ
  similarity : ℝ
  distance : ℝ
  tolerance_used : ℝ

/-- The loop body of `find_matching_photos`: skip items without a usable
descriptor; otherwise compare and keep the item only when
`comparison['is_match']` and `comparison['confidence'] >= 0.4`. -/
noncomputable def matchEntry (user_descriptor : List ℝ) (tolerance : ℝ) (p : Photo) :
    Option MatchedPhoto :=
  match p.descriptor with
  | none => none
  | some d =>
    if d = [] then none
    else
      let c := compare_faces user_descriptor d tolerance
      if c.is_match then
        if 0.4 ≤ c.confidence then
          some { id := p.id, score := c.confidence, similarity := c.similarity,
                 distance := c.distance, tolerance_used := c.tolerance_used }
        else none
      else none

/-- Descending-by-score order used by
`matched_photos.sort(key=lambda x: x['score'], reverse=True)`. -/
def scoreGE (a b : MatchedPhoto) : Prop := b.score ≤ a.score

noncomputable instance : DecidableRel scoreGE := fun _ _ => Real.decidableLE _ _

/-- `AdvancedFaceRecognitionService.find_matching_photos`: filter the
collection through `matchEntry`, then stable-sort by confidence score,
highest first (Python's stable `list.sort` = `List.insertionSort`). -/
noncomputable def find_matching_photos (user_descriptor : List ℝ)
    (photo_collection : List Photo) (tolerance : ℝ) : List MatchedPhoto :=
  List.insertionSort scoreGE (photo_collection.filterMap (matchEntry user_descriptor tolerance))

/-! ## `_LRUCache` (face_recognition_advanced.py:19-54) -/

/-- The `_LRUCache` state: `store` models the Python dict
(key ↦ `(timestamp, value)`), `order` the recency list (least recently
used first).  Timestamps are rationals; `V` is the cached value type. -/
structure LRUCache (V : Type) where
  capacity : ℕ
  ttl : ℚ
  store : String → Option (ℚ × V)
  order : List String

namespace LRUCache

/-- `_LRUCache.delete`: `self.store.pop(key, None)` and remove the key from
`order` if present (`list.remove` drops the first occurrence). -/
def delete {V : Type} (c : LRUCache V) (key : String) : LRUCache V :=
  { c with
    store := fun k => if k = key then none else c.store k
    order := if key ∈ c.order then c.order.erase key else c.order }

/-- `_LRUCache.get` at wall-clock time `now`: returns the looked-up value
(or `none`) together with the updated cache state.  A hit within TTL
refreshes the key's recency (remove + append); an expired entry is deleted
and reported absent. -/
def get {V : Type} (c : LRUCache V) (key : String) (now : ℚ) :
    Option V × LRUCache V :=
  match c.store key with
  | some (ts, value) =>
    if now - ts ≤ c.ttl then
      (some value,
        { c with order := (if key ∈ c.order then c.order.erase key else c.order) ++ [key] })
    else
      (none, c.delete key)
  | none => (none, c)

/-- `_LRUCache.set` at wall-clock time `now`.  If the key is present its
order entry is removed (Python `list.remove`); otherwise, if the order list
has reached capacity, the front (least recently used) key is popped and
evicted from the store.  Then the binding is written and the key appended
as most recent.  (When `capacity = 0` and `order = []` the Python
`order.pop(0)` would raise `IndexError`; that unreachable-from-use corner
is modelled as a no-op.) -/
def set {V : Type} (c : LRUCache V) (key : String) (value : V) (now : ℚ) :
    LRUCache V :=
  let c1 :=
    if (c.store key).isSome then
      { c with order := c.order.erase key }
    else if c.capacity ≤ c.order.length then
      match c.order with
      | [] => c
      | evict :: rest =>
        { c with
          order := rest
          store := fun k => if k = evict then none else c.store k }
    else c
  { c1 with
    store := fun k => if k = key then some (now, value) else c1.store k
    order := c1.order ++ [key] }

end LRUCache

/-! ## `_remove_duplicate_faces` (face_recognition_advanced.py:187-215) -/

/-- A detected bounding box `(top, right, bottom, left)` in pixel offsets. -/
structure FaceBox where
  top : ℤ
  right : ℤ
  bottom : ℤ
  left : ℤ
deriving DecidableEq, Repr

/-- Pixel-area intersection of two boxes, clamped at `0` exactly as in the
Python `max(0, …) * max(0, …)` expression. -/
def overlapArea (a b : FaceBox) : ℤ :=
  max 0 (min a.right b.right - max a.left b.left) *
    max 0 (min a.bottom b.bottom - max a.top b.top)

/-- `(right - left) * (bottom - top)`. -/
def boxArea (a : FaceBox) : ℤ := (a.right - a.left) * (a.bottom - a.top)

/-- The duplicate test `overlap_area > 0.3 * min(face_area, existing_area)`
(the float constant `0.3` is modelled as the exact rational `3/10`). -/
def isDuplicateOf (face existing : FaceBox) : Bool :=
  decide ((0.3 : ℚ) * (min (boxArea face) (boxArea existing) : ℤ) < (overlapArea face existing : ℤ))

/-- The accumulator step of `_remove_duplicate_faces`: append `face` unless
it overlaps some already-kept box beyond the threshold (the Python inner
loop with `break` is an existence test over `unique_faces`). -/
def dedupStep (unique_faces : List FaceBox) (face : FaceBox) : List FaceBox :=
  if unique_faces.any (fun ex => isDuplicateOf face ex) then unique_faces
  else unique_faces ++ [face]

/-- `AdvancedFaceRecognitionService._remove_duplicate_faces`. -/
def remove_duplicate_faces (face_locations : List FaceBox) : List FaceBox :=
  if face_locations.length ≤ 1 then face_locations
  else face_locations.foldl dedupStep []

/-! ## `batch_analyze_photos` (face_recognition_advanced.py:505-546) -/

/-- Outcome of `_process` for one URL, abstracting the network / model call:
`raised` models an exception escaping `get_face_descriptors_from_url`
(so `_process` returns `ok = False`), `returned r` models a normal return
of `r` (`none` = Python `None`: image failed to load softly or no face
found). -/
inductive FetchOutcome (Desc : Type) where
  | raised : FetchOutcome Desc
  | returned : Option (List Desc) → FetchOutcome Desc

/-- The `results` dict built by `batch_analyze_photos`. -/
structure BatchResults (Desc : Type) where
  processed : ℕ
  faces_found : ℕ
  failed : ℕ
  photo_data : List (String × List Desc × ℕ)

/-- One iteration of the `executor.map` consumption loop: always count
`processed`; count `faces_found` (and record data) only for a non-`None`,
non-empty descriptor list; count `failed` only when `ok` was false. -/
def batchStep {Desc : Type} (r : BatchResults Desc) (item : String × FetchOutcome Desc) :
    BatchResults Desc :=
  let r1 := { r with processed := r.processed + 1 }
  match item.2 with
  | .returned (some ds) =>
    if ds.isEmpty then r1
    else
      { r1 with
        faces_found := r1.faces_found + 1
        photo_data := r1.photo_data ++ [(item.1, ds, ds.length)] }
  | .returned none => r1
  | .raised => { r1 with failed := r1.failed + 1 }

/-- `AdvancedFaceRecognitionService.batch_analyze_photos`, given the list of
URLs paired with the outcome of processing each (`executor.map` yields
results in input order). -/
def batch_analyze_photos {Desc : Type} (items : List (String × FetchOutcome Desc)) :
    BatchResults Desc :=
  items.foldl batchStep ⟨0, 0, 0, []⟩

/-- `True` for the outcomes counted by `faces_found`. -/
def FetchOutcome.found {Desc : Type} : FetchOutcome Desc → Bool
  | .returned (some ds) => !ds.isEmpty
  | _ => false

/-- `True` for the outcomes counted by `failed`. -/
def FetchOutcome.bad {Desc : Type} : FetchOutcome Desc → Bool
  | .raised => true
  | _ => false

/-! ## `InsightFaceFaissService` (insightface_faiss_service.py) -/

/-- One per-event index entry: the identifier list `ids` and the parallel
matrix of stored vectors (`entry["vectors"]`, one row per identifier; the
FAISS `IndexFlatIP` holds exactly the same rows, so a single list models
both). -/
structure EventEntry where
  ids : List String
  vectors : List (List ℝ)

/-- The service state: the `event_indices` dict, event id ↦ entry. -/
structure FaissState where
  event_indices : String → Option EventEntry

/-- `vec / (np.linalg.norm(vec) + 1e-8)`. -/
noncomputable def normalizeVec (v : List ℝ) : List ℝ :=
  v.map (fun x => x / (l2norm v + 1e-8))

/-- `_get_or_create_index` viewed as a read: the existing entry or a fresh
empty one (the `dim` argument only sizes the FAISS structure and plays no
role in the embedded state). -/
def getOrCreate (s : FaissState) (event_id : String) : EventEntry :=
  (s.event_indices event_id).getD { ids := [], vectors := [] }

/-- The append loop of `ingest`: extend the event's entry with the given
rows and identifiers (pairwise `np.vstack` / `index.add` / `ids.append`
amounts to list concatenation). -/
def addEntries (s : FaissState) (event_id : String) (vecs : List (List ℝ))
    (newIds : List String) : FaissState :=
  let entry := getOrCreate s event_id
  let entry2 : EventEntry := { ids := entry.ids ++ newIds, vectors := entry.vectors ++ vecs }
  { event_indices := fun e => if e = event_id then some entry2 else s.event_indices e }

/-- `InsightFaceFaissService.ingest`.  `urlFaces` stands for the value
returned by `compute_embeddings_from_url image_url` (already unit-normalized
by that function; `none` = download/detection failure).  With no embedding
and no URL the Python raises `ValueError`, modelled as `Except.error`;
`if not vecs` treats both `None` and `[]` as failure. -/
noncomputable def ingest (s : FaissState) (event_id photo_id : String)
    (image_url : Option String) (embedding : Option (List ℝ))
    (urlFaces : Option (List (List ℝ))) : Except String (Bool × FaissState) :=
  match embedding with
  | none =>
    match image_url with
    | none => .error "Either embedding or image_url must be provided"
    | some _ =>
      match urlFaces with
      | none => .ok (false, s)
      | some [] => .ok (false, s)
      | some vecs =>
        let ids_to_add := (List.range vecs.length).map (fun i => photo_id ++ "#" ++ toString i)
        .ok (true, addEntries s event_id vecs ids_to_add)
  | some emb =>
    .ok (true, addEntries s event_id [normalizeVec emb] [photo_id])

/-- Descending order on `(score, index)` search hits. -/
def hitGE (a b : ℝ × ℕ) : Prop := b.1 ≤ a.1

noncomputable instance : DecidableRel hitGE := fun _ _ => Real.decidableLE _ _

/-- `faiss.IndexFlatIP.search` over the stored rows: score every row by
inner product with `q`, sort the `(score, row-index)` pairs by score
descending and return the first `k`.  (FAISS returns exact top-`k` results
in decreasing-score order; `match` always calls it with
`k = min top_k ntotal ≤ ntotal`, so the `idx < 0` padding guard in the
Python loop is vacuous and the indices are genuine row numbers.) -/
noncomputable def searchTopK (vectors : List (List ℝ)) (q : List ℝ) (k : ℕ) :
    List (ℝ × ℕ) :=
  (List.insertionSort hitGE ((vectors.map (fun v => dotList q v)).enum.map
    (fun p => (p.2, p.1)))).take k

/-- `r["id"].split("#", 1)[0]`: the prefix of the identifier before its
first `#` (the whole identifier when it contains none), written over the
character list so that it evaluates by `decide`. -/
def baseId (s : String) : String := String.mk (s.data.takeWhile (fun c => c ≠ '#'))

/-- One step of the grouping loop
`grouped[base_id] = max(grouped.get(base_id, 0.0), r["score"])` on the
insertion-ordered association list modelling the Python dict. -/
def assocUpdateMax : List (String × ℝ) → String → ℝ → List (String × ℝ)
  | [], key, score => [(key, max 0.0 score)]
  | (k, v) :: rest, key, score =>
    if k = key then (k, max v score) :: rest
    else (k, v) :: assocUpdateMax rest key score

/-- One step of the grouping loop of `match`, on one `(id, score)` result:
`grouped[base_id] = max(grouped.get(base_id, 0.0), r["score"])`. -/
def groupStep (acc : List (String × ℝ)) (r : String × ℝ) : List (String × ℝ) :=
  assocUpdateMax acc (baseId r.1) r.2

/-- Descending order on grouped `(id, score)` results. -/
def pairGE (a b : String × ℝ) : Prop := b.2 ≤ a.2

noncomputable instance : DecidableRel pairGE := fun _ _ => Real.decidableLE _ _

/-- `InsightFaceFaissService.match`: empty/unknown event ⇒ `[]`; otherwise
normalize the query, take the top `min top_k n` hits by inner product, keep
those with `score ≥ threshold`, translate row indices to identifiers, group
by base id keeping the per-id maximum (with the dict-`get` default `0.0`),
and sort the grouped pairs by score descending. -/
noncomputable def matchQuery (s : FaissState) (event_id : String)
    (query_embedding : List ℝ) (top_k : ℕ) (threshold : ℝ) : List (String × ℝ) :=
  match s.event_indices event_id with
  | none => []
  | some entry =>
    if entry.ids.length = 0 then []
    else
      let q := normalizeVec query_embedding
      let hits := searchTopK entry.vectors q (min top_k entry.ids.length)
      let results := (hits.filter (fun h => decide (threshold ≤ h.1))).map
        (fun h => (entry.ids.getD h.2 "", h.1))
      let grouped := results.foldl groupStep []
      List.insertionSort pairGE grouped

/-- First-match lookup in the association list modelling the grouping dict. -/
def assocLookup : List (String × ℝ) → String → Option ℝ
  | [], _ => none
  | (k, v) :: rest, b => if k = b then some v else assocLookup rest b

/-- The scores carried by the pairs of `rs` whose identifier has base id `b`. -/
def scoresFor (b : String) (rs : List (String × ℝ)) : List ℝ :=
  (rs.filter (fun r => decide (baseId r.1 = b))).map Prod.snd

/-- Specification helper for the grouping claims: the scores of the stored
entries of `entry` whose identifier has base id `b` and whose inner-product
score against the normalized query passes `threshold`. -/
noncomputable def passingScores (entry : EventEntry) (q : List ℝ) (threshold : ℝ)
    (b : String) : List ℝ :=
  scoresFor b
    ((entry.ids.zip (entry.vectors.map (fun v => dotList (normalizeVec q) v))).filter
      (fun p => decide (threshold ≤ p.2)))

/-- A two-face scope for the single photo `"photo1"`, used to probe the
grouping behaviour on concrete data. -/
noncomputable def cexEntry : EventEntry :=
  { ids := ["photo1#0", "photo1#1"], vectors := [[-1], [-1/2]] }

/-- A service state holding only the scope `"e"` with `cexEntry`. -/
noncomputable def cexState : FaissState :=
  { event_indices := fun e => if e = "e" then some cexEntry else none }

/-- A two-face scope with positive scores, for the grouping witness. -/
noncomputable def posEntry : EventEntry :=
  { ids := ["photo1#0", "photo1#1"], vectors := [[1], [1/2]] }

/-- A service state holding only the scope `"e"` with `posEntry`. -/
noncomputable def posState : FaissState :=
  { event_indices := fun e => if e = "e" then some posEntry else none }

/-- A scope with two distinct base ids, for probing `top_k` truncation. -/
noncomputable def topEntry : EventEntry :=
  { ids := ["a#0", "b#0"], vectors := [[1], [1/2]] }

/-- A service state holding only the scope `"e"` with `topEntry`. -/
noncomputable def topState : FaissState :=
  { event_indices := fun e => if e = "e" then some topEntry else none }

/-- A one-item collection used to exercise the matcher on concrete data. -/
def photoA : Photo := { id := "a", descriptor := some [0] }

/-- A two-entry cache used to exercise the LRU contract concretely. -/
def cacheB : LRUCache ℕ :=
  { capacity := 2, ttl := 10
    store := fun k => if k = "a" then some (0, 1) else if k = "b" then some (0, 2) else none
    order := ["a", "b"] }

/-- A full one-slot cache used to exercise eviction concretely. -/
def cacheC : LRUCache ℕ :=
  { capacity := 1, ttl := 10
    store := fun k => if k = "a" then some (0, 1) else none
    order := ["a"] }

instance : IsTotal MatchedPhoto scoreGE := ⟨fun a b => le_total b.score a.score⟩

instance : IsTrans MatchedPhoto scoreGE := ⟨fun _ _ _ h1 h2 => le_trans h2 h1⟩

instance : IsTotal (String × ℝ) pairGE := ⟨fun a b => le_total b.2 a.2⟩

instance : IsTrans (String × ℝ) pairGE := ⟨fun _ _ _ h1 h2 => le_trans h2 h1⟩

/-! ## Helper lemmas: `compare_faces` and `find_matching_photos` -/

lemma compare_faces_of_length_eq {d1 d2 : List ℝ} (h : d1.length = d2.length) (tol : ℝ) :
    compare_faces d1 d2 tol =
      { is_match := decide (euclidDist d1 d2 ≤ tol)
        distance := euclidDist d1 d2
        similarity := dotList d1 d2 / (l2norm d1 * l2norm d2)
        confidence := max 0 (1 - euclidDist d1 d2 / 1.2)
        tolerance_used := tol } := by
  simp [compare_faces, h]

lemma compare_faces_of_length_ne {d1 d2 : List ℝ} (h : ¬ d1.length = d2.length) (tol : ℝ) :
    compare_faces d1 d2 tol =
      { is_match := false
        distance := 999.0
        similarity := 0.0
        confidence := 0.0
        tolerance_used := if tol = 0 then 0.6 else tol } := by
  simp [compare_faces, h]

lemma length_eq_of_is_match {d1 d2 : List ℝ} {tol : ℝ}
    (h : (compare_faces d1 d2 tol).is_match = true) : d1.length = d2.length := by
  by_contra hne
  rw [compare_faces_of_length_ne hne] at h
  exact Bool.false_ne_true h

lemma l2norm_single (a : ℝ) : l2norm [a] = |a| := by
  simp [l2norm, Real.sqrt_sq_eq_abs]

lemma dotList_single (a b : ℝ) : dotList [a] [b] = a * b := by
  simp [dotList]

lemma euclidDist_single (a b : ℝ) : euclidDist [a] [b] = |a - b| := by
  simp [euclidDist, Real.sqrt_sq_eq_abs]

lemma compare_faces_single (a b tol : ℝ) :
    compare_faces [a] [b] tol =
      { is_match := decide (|a - b| ≤ tol)
        distance := |a - b|
        similarity := a * b / (|a| * |b|)
        confidence := max 0 (1 - |a - b| / 1.2)
        tolerance_used := tol } := by
  simp [compare_faces, euclidDist_single, dotList_single, l2norm_single]

lemma matchEntry_eq_some_iff {ud : List ℝ} {tol : ℝ} {p : Photo} {m : MatchedPhoto} :
    matchEntry ud tol p = some m ↔
      ∃ d, p.descriptor = some d ∧ d ≠ [] ∧
        (compare_faces ud d tol).is_match = true ∧
        0.4 ≤ (compare_faces ud d tol).confidence ∧
        m = { id := p.id, score := (compare_faces ud d tol).confidence,
              similarity := (compare_faces ud d tol).similarity,
              distance := (compare_faces ud d tol).distance,
              tolerance_used := (compare_faces ud d tol).tolerance_used } := by
  cases hd : p.descriptor with
  | none => simp [matchEntry, hd]
  | some d =>
    simp only [matchEntry, hd]
    by_cases hne : d = []
    · simp [hne]
    · simp only [hne, if_false]
      split_ifs with hm hc
      · simp only [Option.some.injEq]
        constructor
        · rintro rfl
          exact ⟨d, rfl, hne, hm, hc, rfl⟩
        · rintro ⟨e, he, -, -, -, rfl⟩
          cases he
          rfl
      · simp only [false_iff]
        rintro ⟨e, he, -, -, hc2, -⟩
        cases he
        exact hc hc2
      · simp only [false_iff]
        rintro ⟨e, he, -, hm2, -, -⟩
        cases he
        exact hm hm2


lemma mem_find_matching_photos {ud : List ℝ} {tol : ℝ} {coll : List Photo}
    {m : MatchedPhoto} :
    m ∈ find_matching_photos ud coll tol ↔ ∃ p ∈ coll, matchEntry ud tol p = some m := by
  rw [find_matching_photos, List.mem_insertionSort, List.mem_filterMap]

lemma pairwise_find_matching_photos (ud : List ℝ) (coll : List Photo) (tol : ℝ) :
    (find_matching_photos ud coll tol).Pairwise scoreGE :=
  List.sorted_insertionSort scoreGE _

/-! ## C1, C3, C5: the MatchEngine claims -/

/-- C1: every entry of `find_matching_photos` comes from a collection item
whose comparison both has `is_match` true and has confidence at least
`0.4` (entries failing either gate are excluded, since every result entry
arises this way), and the returned list is sorted by confidence score
descending. -/
theorem find_matches_gates_and_sorted (ud : List ℝ) (coll : List Photo) (tol : ℝ) :
    (∀ m ∈ find_matching_photos ud coll tol,
      ∃ p ∈ coll, ∃ d, p.descriptor = some d ∧
        (compare_faces ud d tol).is_match = true ∧
        0.4 ≤ (compare_faces ud d tol).confidence ∧
        m.id = p.id ∧ m.score = (compare_faces ud d tol).confidence) ∧
    (find_matching_photos ud coll tol).Pairwise (fun a b => b.score ≤ a.score) := by
  refine ⟨?_, pairwise_find_matching_photos ud coll tol⟩
  intro m hm
  obtain ⟨p, hp, hpm⟩ := mem_find_matching_photos.mp hm
  obtain ⟨d, hd, -, hmatch, hconf, rfl⟩ := matchEntry_eq_some_iff.mp hpm
  exact ⟨p, hp, d, hd, hmatch, hconf, rfl, rfl⟩

/-- C3: `compare_faces` is a total function (the embedding of a body whose
`except` clause maps every raised exception to a sentinel record): on
equal-length vectors it reports the Euclidean distance, the cosine
similarity, `is_match ↔ distance ≤ tolerance` and
`confidence = max 0 (1 - distance / 1.2)`; on mismatched lengths (the
inputs on which the `numpy` body raises) it returns the deterministic
worst-case record `is_match = false, distance = 999.0, confidence = 0`. -/
theorem compare_faces_total_contract (d1 d2 : List ℝ) (tol : ℝ) :
    (d1.length = d2.length →
      ((compare_faces d1 d2 tol).is_match = true ↔
        (compare_faces d1 d2 tol).distance ≤ tol) ∧
      (compare_faces d1 d2 tol).distance = euclidDist d1 d2 ∧
      (compare_faces d1 d2 tol).similarity =
        dotList d1 d2 / (l2norm d1 * l2norm d2) ∧
      (compare_faces d1 d2 tol).confidence =
        max 0 (1 - (compare_faces d1 d2 tol).distance / 1.2)) ∧
    (¬ d1.length = d2.length →
      (compare_faces d1 d2 tol).is_match = false ∧
      (compare_faces d1 d2 tol).distance = 999.0 ∧
      (compare_faces d1 d2 tol).confidence = 0) := by
  constructor
  · intro h
    rw [compare_faces_of_length_eq h]
    simp
  · intro h
    rw [compare_faces_of_length_ne h]
    norm_num

/-- Witness for C3 at concrete inputs: the well-formed branch at
`[0], [0]` and the malformed branch at `[0], []`. -/
theorem compare_faces_total_contract_witness :
    (((compare_faces [0] [0] 0.6).is_match = true ↔
        (compare_faces [0] [0] 0.6).distance ≤ 0.6) ∧
      (compare_faces [0] [0] 0.6).distance = euclidDist [0] [0] ∧
      (compare_faces [0] [0] 0.6).similarity =
        dotList [0] [0] / (l2norm [0] * l2norm [0]) ∧
      (compare_faces [0] [0] 0.6).confidence =
        max 0 (1 - (compare_faces [0] [0] 0.6).distance / 1.2)) ∧
    ((compare_faces [0] [] 0.6).is_match = false ∧
      (compare_faces [0] [] 0.6).distance = 999.0 ∧
      (compare_faces [0] [] 0.6).confidence = 0) :=
  ⟨(compare_faces_total_contract [0] [0] 0.6).1 rfl,
   (compare_faces_total_contract [0] [] 0.6).2 (by decide)⟩

/-- C5: raising the tolerance never turns a match into a non-match, and
every photo returned by `find_matching_photos` at a stricter tolerance is
returned (with the same score, similarity and distance) at any looser
one. -/
theorem threshold_monotonicity (ud d1 d2 : List ℝ) (coll : List Photo) (t1 t2 : ℝ)
    (h12 : t1 ≤ t2) :
    ((compare_faces d1 d2 t1).is_match = true →
      (compare_faces d1 d2 t2).is_match = true) ∧
    (∀ m ∈ find_matching_photos ud coll t1,
      ∃ m2 ∈ find_matching_photos ud coll t2,
        m2.id = m.id ∧ m2.score = m.score ∧ m2.similarity = m.similarity ∧
          m2.distance = m.distance) := by
  have key : ∀ e1 e2 : List ℝ, (compare_faces e1 e2 t1).is_match = true →
      (compare_faces e1 e2 t2).is_match = true := by
    intro e1 e2 h
    have hlen := length_eq_of_is_match h
    rw [compare_faces_of_length_eq hlen] at h ⊢
    simp only [decide_eq_true_eq] at h ⊢
    exact le_trans h h12
  refine ⟨key d1 d2, ?_⟩
  intro m hm
  obtain ⟨p, hp, hpm⟩ := mem_find_matching_photos.mp hm
  obtain ⟨d, hd, hdne, hmatch, hconf, rfl⟩ := matchEntry_eq_some_iff.mp hpm
  have hlen := length_eq_of_is_match hmatch
  refine ⟨{ id := p.id, score := (compare_faces ud d t2).confidence,
            similarity := (compare_faces ud d t2).similarity,
            distance := (compare_faces ud d t2).distance,
            tolerance_used := (compare_faces ud d t2).tolerance_used }, ?_, ?_, ?_, ?_, ?_⟩
  · refine mem_find_matching_photos.mpr ⟨p, hp, ?_⟩
    refine matchEntry_eq_some_iff.mpr ⟨d, hd, hdne, key ud d hmatch, ?_, rfl⟩
    rw [compare_faces_of_length_eq hlen]
    rw [compare_faces_of_length_eq hlen] at hconf
    exact hconf
  · rfl
  · rw [compare_faces_of_length_eq hlen, compare_faces_of_length_eq hlen]
  · rw [compare_faces_of_length_eq hlen, compare_faces_of_length_eq hlen]
  · rw [compare_faces_of_length_eq hlen, compare_faces_of_length_eq hlen]


lemma find_matching_photos_photoA (tol : ℝ) (h : 0 ≤ tol) :
    find_matching_photos [0] [photoA] tol =
      [{ id := "a", score := 1, similarity := 0, distance := 0, tolerance_used := tol }] := by
  have hm : matchEntry [0] tol { id := "a", descriptor := some [0] } =
      some { id := "a", score := 1, similarity := 0, distance := 0, tolerance_used := tol } := by
    rw [matchEntry]
    norm_num [compare_faces_single, h]
  rw [find_matching_photos, photoA]
  simp [List.filterMap, hm]

/-- Witness for C1: the gates and sortedness, observed on a concrete
one-item collection whose single entry matches with confidence `1`. -/
theorem find_matches_gates_and_sorted_witness :
    ∃ p ∈ [photoA], ∃ d, p.descriptor = some d ∧
      (compare_faces [0] d 0.6).is_match = true ∧
      0.4 ≤ (compare_faces [0] d 0.6).confidence ∧
      ({ id := "a", score := 1, similarity := 0, distance := 0,
         tolerance_used := 0.6 } : MatchedPhoto).id = p.id ∧
      ({ id := "a", score := 1, similarity := 0, distance := 0,
         tolerance_used := 0.6 } : MatchedPhoto).score =
        (compare_faces [0] d 0.6).confidence :=
  (find_matches_gates_and_sorted [0] [photoA] 0.6).1
    { id := "a", score := 1, similarity := 0, distance := 0, tolerance_used := 0.6 }
    (by rw [find_matching_photos_photoA 0.6 (by norm_num)]; exact List.mem_singleton_self _)

/-- Witness for C5: the match found at tolerance `0.6` is still found, with
identical id and scores, at tolerance `0.7`. -/
theorem threshold_monotonicity_witness :
    ∃ m2 ∈ find_matching_photos [0] [photoA] 0.7,
      m2.id = ({ id := "a", score := 1, similarity := 0, distance := 0,
                 tolerance_used := 0.6 } : MatchedPhoto).id ∧
      m2.score = ({ id := "a", score := 1, similarity := 0, distance := 0,
                    tolerance_used := 0.6 } : MatchedPhoto).score ∧
      m2.similarity = ({ id := "a", score := 1, similarity := 0, distance := 0,
                         tolerance_used := 0.6 } : MatchedPhoto).similarity ∧
      m2.distance = ({ id := "a", score := 1, similarity := 0, distance := 0,
                       tolerance_used := 0.6 } : MatchedPhoto).distance :=
  (threshold_monotonicity [0] [0] [0] [photoA] 0.6 0.7 (by norm_num)).2
    { id := "a", score := 1, similarity := 0, distance := 0, tolerance_used := 0.6 }
    (by rw [find_matching_photos_photoA 0.6 (by norm_num)]; exact List.mem_singleton_self _)

/-! ## C4: the `_LRUCache` LRU/TTL contract -/

/-- C4: for every cache (with duplicate-free recency list): a `get` on an
entry strictly older than the TTL answers absent and removes the entry
from both the store and the recency list; a `get` on a live entry returns
its value and moves the key to the most-recently-used (last) position,
preserving the relative order of the other keys; a `set` of a fresh key on
a cache whose recency list has reached capacity pops the front
(least-recently-used) key, evicts its store binding, and inserts the new
binding as most recent. -/
theorem lru_cache_contract {V : Type} (c : LRUCache V) (key : String) (now ts : ℚ)
    (v v0 : V) (hnd : c.order.Nodup) :
    (c.store key = some (ts, v0) → c.ttl < now - ts →
      (c.get key now).1 = none ∧
      (c.get key now).2.store key = none ∧
      key ∉ (c.get key now).2.order) ∧
    (c.store key = some (ts, v0) → now - ts ≤ c.ttl → key ∈ c.order →
      (c.get key now).1 = some v0 ∧
      (c.get key now).2.order = c.order.erase key ++ [key] ∧
      (c.get key now).2.order.getLast? = some key) ∧
    (c.store key = none → key ∉ c.order →
      ∀ evict rest, c.order = evict :: rest → c.capacity ≤ c.order.length →
        (c.set key v now).order = rest ++ [key] ∧
        (c.set key v now).store evict = none ∧
        (c.set key v now).store key = some (now, v)) := by
  refine ⟨?_, ?_, ?_⟩
  · intro hs hexp
    have hlt : ¬ now - ts ≤ c.ttl := not_le.mpr hexp
    have hget : c.get key now = (none, c.delete key) := by
      rw [LRUCache.get, hs]
      simp only [hlt, if_false]
    rw [hget]
    refine ⟨rfl, ?_, ?_⟩
    · show (if key = key then none else c.store key) = none
      rw [if_pos rfl]
    · show key ∉ (if key ∈ c.order then c.order.erase key else c.order)
      by_cases hmem : key ∈ c.order
      · rw [if_pos hmem]
        exact hnd.not_mem_erase
      · rw [if_neg hmem]
        exact hmem
  · intro hs hlive hmem
    have hget : c.get key now =
        (some v0,
          { c with order := (if key ∈ c.order then c.order.erase key else c.order) ++ [key] }) := by
      rw [LRUCache.get, hs]
      simp only [hlive, if_true]
    rw [hget]
    refine ⟨rfl, ?_, ?_⟩
    · show (if key ∈ c.order then c.order.erase key else c.order) ++ [key] =
        c.order.erase key ++ [key]
      rw [if_pos hmem]
    · exact List.getLast?_concat _
  · intro hs hmem evict rest horder hcap
    have hcap2 : c.capacity ≤ (evict :: rest).length := horder ▸ hcap
    have hek : evict ≠ key := by
      intro h
      exact hmem (h ▸ horder ▸ List.mem_cons_self evict rest)
    have hset : c.set key v now =
        { c with
          order := rest ++ [key]
          store := fun k =>
            if k = key then some (now, v) else if k = evict then none else c.store k } := by
      rw [LRUCache.set, hs]
      simp only [Option.isSome_none, Bool.false_eq_true, if_false, horder, if_pos hcap2]
    rw [hset]
    refine ⟨rfl, ?_, ?_⟩
    · show (if evict = key then some (now, v) else if evict = evict then none else c.store evict) =
        none
      rw [if_neg hek, if_pos rfl]
    · show (if key = key then some (now, v) else if key = evict then none else c.store key) =
        some (now, v)
      rw [if_pos rfl]



/-- Witness for C4: on concrete caches — an expired read of `"a"` (at time
`11`, TTL `10`) behaves as absent and evicts; a live read of `"a"` (at time
`5`) returns the value and moves `"a"` behind `"b"`; a `set` of fresh key
`"b"` into a full one-slot cache evicts the front key `"a"`. -/
theorem lru_cache_contract_witness :
    ((cacheB.get "a" 11).1 = none ∧
      (cacheB.get "a" 11).2.store "a" = none ∧
      "a" ∉ (cacheB.get "a" 11).2.order) ∧
    ((cacheB.get "a" 5).1 = some 1 ∧
      (cacheB.get "a" 5).2.order = cacheB.order.erase "a" ++ ["a"] ∧
      (cacheB.get "a" 5).2.order.getLast? = some "a") ∧
    ((cacheC.set "b" 7 3).order = [] ++ ["b"] ∧
      (cacheC.set "b" 7 3).store "a" = none ∧
      (cacheC.set "b" 7 3).store "b" = some (3, 7)) :=
  ⟨(lru_cache_contract cacheB "a" 11 0 7 1 (by decide)).1 (by decide) (by norm_num [cacheB]),
   (lru_cache_contract cacheB "a" 5 0 7 1 (by decide)).2.1 (by decide)
     (by norm_num [cacheB]) (by decide),
   (lru_cache_contract cacheC "b" 3 0 7 1 (by decide)).2.2 (by decide) (by decide)
     "a" [] (by decide) (by decide)⟩

/-! ## C6: duplicate-box suppression -/

lemma dedup_foldl_append :
    ∀ (l acc : List FaceBox), ∃ t, l.foldl dedupStep acc = acc ++ t ∧ t.Sublist l := by
  intro l
  induction l with
  | nil => exact fun acc => ⟨[], by simp, List.Sublist.refl _⟩
  | cons f l ih =>
    intro acc
    rw [List.foldl_cons, dedupStep]
    by_cases h : acc.any (fun ex => isDuplicateOf f ex) = true
    · obtain ⟨t, h1, h2⟩ := ih acc
      exact ⟨t, by rw [if_pos h]; exact h1, h2.cons f⟩
    · obtain ⟨t, h1, h2⟩ := ih (acc ++ [f])
      refine ⟨f :: t, ?_, h2.cons₂ f⟩
      rw [if_neg h, h1, List.append_assoc]
      rfl

lemma dedup_foldl_pairwise :
    ∀ (l acc : List FaceBox),
      acc.Pairwise (fun a b => isDuplicateOf b a = false) →
      (l.foldl dedupStep acc).Pairwise (fun a b => isDuplicateOf b a = false) := by
  intro l
  induction l with
  | nil => exact fun acc h => h
  | cons f l ih =>
    intro acc hacc
    rw [List.foldl_cons, dedupStep]
    by_cases h : acc.any (fun ex => isDuplicateOf f ex) = true
    · rw [if_pos h]
      exact ih acc hacc
    · rw [if_neg h]
      refine ih (acc ++ [f]) ?_
      rw [List.pairwise_append]
      refine ⟨hacc, List.pairwise_singleton _ _, ?_⟩
      intro a ha b hb
      rw [List.mem_singleton] at hb
      subst hb
      rw [List.any_eq_true] at h
      push_neg at h
      simpa using h a ha

lemma dedup_foldl_covered :
    ∀ (l acc : List FaceBox), ∀ f ∈ l,
      f ∈ l.foldl dedupStep acc ∨
        ∃ e ∈ l.foldl dedupStep acc, isDuplicateOf f e = true := by
  intro l
  induction l with
  | nil => intro acc f hf; exact absurd hf (List.not_mem_nil f)
  | cons f0 l ih =>
    intro acc f hf
    rw [List.foldl_cons]
    rcases List.mem_cons.mp hf with rfl | hf
    · rw [dedupStep]
      by_cases h : acc.any (fun ex => isDuplicateOf f ex) = true
      · rw [if_pos h]
        rw [List.any_eq_true] at h
        obtain ⟨e, he, hdup⟩ := h
        obtain ⟨t, ht, -⟩ := dedup_foldl_append l acc
        exact Or.inr ⟨e, by rw [ht]; exact List.mem_append_left t he, hdup⟩
      · rw [if_neg h]
        obtain ⟨t, ht, -⟩ := dedup_foldl_append l (acc ++ [f])
        refine Or.inl ?_
        rw [ht]
        exact List.mem_append_left t (List.mem_append_right acc (List.mem_singleton_self f))
    · exact ih (dedupStep acc f0) f hf

/-- C6: `_remove_duplicate_faces` keeps a subsequence of the detections in
first-seen order; no kept box overlaps an earlier-kept box by more than
30% of the smaller area (`isDuplicateOf`); every input box is either kept
or is a duplicate of some kept box; and the first-seen box is always
kept. -/
theorem remove_duplicates_contract (faces : List FaceBox) :
    (remove_duplicate_faces faces).Sublist faces ∧
    (remove_duplicate_faces faces).Pairwise (fun a b => isDuplicateOf b a = false) ∧
    (∀ f ∈ faces, f ∈ remove_duplicate_faces faces ∨
      ∃ e ∈ remove_duplicate_faces faces, isDuplicateOf f e = true) ∧
    (∀ f rest, faces = f :: rest → f ∈ remove_duplicate_faces faces) := by
  rw [remove_duplicate_faces]
  by_cases h : faces.length ≤ 1
  · rw [if_pos h]
    refine ⟨List.Sublist.refl _, ?_, fun f hf => Or.inl hf, fun f rest hfr => hfr ▸ List.mem_cons_self f rest⟩
    match faces, h with
    | [], _ => exact List.Pairwise.nil
    | [f], _ => exact List.pairwise_singleton _ _
  · rw [if_neg h]
    obtain ⟨t, ht, hsub⟩ := dedup_foldl_append faces []
    refine ⟨?_, dedup_foldl_pairwise faces [] List.Pairwise.nil, dedup_foldl_covered faces [], ?_⟩
    · rw [ht, List.nil_append]
      exact hsub
    · intro f rest hfr
      subst hfr
      rw [List.foldl_cons]
      have hstep : dedupStep [] f = [f] := by rw [dedupStep]; simp
      rw [hstep]
      obtain ⟨t2, ht2, -⟩ := dedup_foldl_append rest [f]
      rw [ht2]
      exact List.mem_append_left t2 (List.mem_singleton_self f)

/-- Witness for C6: on three concrete boxes where the second heavily
overlaps the (larger) first and the third is disjoint, the middle box is
reported as a duplicate of a kept box. -/
theorem remove_duplicates_contract_witness :
    (⟨0, 9, 9, 0⟩ : FaceBox) ∈ remove_duplicate_faces [⟨0, 10, 10, 0⟩, ⟨0, 9, 9, 0⟩, ⟨0, 30, 30, 20⟩] ∨
      ∃ e ∈ remove_duplicate_faces [⟨0, 10, 10, 0⟩, ⟨0, 9, 9, 0⟩, ⟨0, 30, 30, 20⟩],
        isDuplicateOf ⟨0, 9, 9, 0⟩ e = true :=
  (remove_duplicates_contract [⟨0, 10, 10, 0⟩, ⟨0, 9, 9, 0⟩, ⟨0, 30, 30, 20⟩]).2.2.1
    ⟨0, 9, 9, 0⟩ (by simp)

/-! ## C9: batch counting -/

lemma batch_foldl_counts {Desc : Type} :
    ∀ (items : List (String × FetchOutcome Desc)) (r0 : BatchResults Desc),
      (items.foldl batchStep r0).processed = r0.processed + items.length ∧
      (items.foldl batchStep r0).faces_found =
        r0.faces_found + (items.filter (fun it => it.2.found)).length ∧
      (items.foldl batchStep r0).failed =
        r0.failed + (items.filter (fun it => it.2.bad)).length := by
  intro items
  induction items with
  | nil => intro r0; simp
  | cons it l ih =>
    intro r0
    obtain ⟨u, o⟩ := it
    rw [List.foldl_cons]
    obtain ⟨ihp, ihf, ihb⟩ := ih (batchStep r0 (u, o))
    cases o with
    | raised =>
      refine ⟨?_, ?_, ?_⟩
      · rw [ihp]; simp [batchStep]; omega
      · rw [ihf]; simp [batchStep, FetchOutcome.found]
      · rw [ihb]; simp [batchStep, FetchOutcome.bad]; omega
    | returned r =>
      cases r with
      | none =>
        refine ⟨?_, ?_, ?_⟩
        · rw [ihp]; simp [batchStep]; omega
        · rw [ihf]; simp [batchStep, FetchOutcome.found]
        · rw [ihb]; simp [batchStep, FetchOutcome.bad]
      | some ds =>
        by_cases hds : ds.isEmpty
        · refine ⟨?_, ?_, ?_⟩
          · rw [ihp]; simp [batchStep, hds]; omega
          · rw [ihf]; simp [batchStep, hds, FetchOutcome.found]
          · rw [ihb]; simp [batchStep, hds, FetchOutcome.bad]
        · refine ⟨?_, ?_, ?_⟩
          · rw [ihp]; simp [batchStep, hds]; omega
          · rw [ihf]; simp [batchStep, hds, FetchOutcome.found]; omega
          · rw [ihb]; simp [batchStep, hds, FetchOutcome.bad]

/-- C9: `batch_analyze_photos` counts every item in `processed`, counts in
`faces_found` exactly the items whose processing returned a non-empty
descriptor list, and counts in `failed` exactly the items whose processing
raised; an item returning `None` (soft image failure or no face) is
counted in neither of the latter, so on some inputs
`faces_found + failed < processed`. -/
theorem batch_counts_contract {Desc : Type} (items : List (String × FetchOutcome Desc)) :
    (batch_analyze_photos items).processed = items.length ∧
    (batch_analyze_photos items).faces_found =
      (items.filter (fun it => it.2.found)).length ∧
    (batch_analyze_photos items).failed =
      (items.filter (fun it => it.2.bad)).length ∧
    (∃ its : List (String × FetchOutcome ℕ),
      (batch_analyze_photos its).faces_found + (batch_analyze_photos its).failed <
        (batch_analyze_photos its).processed) := by
  obtain ⟨hp, hf, hb⟩ := batch_foldl_counts items ⟨0, 0, 0, []⟩
  refine ⟨by rw [batch_analyze_photos, hp]; simp, by rw [batch_analyze_photos, hf]; simp,
    by rw [batch_analyze_photos, hb]; simp, ⟨[("u", .returned none)], by decide⟩⟩

/-- Witness for C9 at a concrete three-outcome batch: one success with one
face, one soft `None`, one raised exception. -/
theorem batch_counts_contract_witness :
    (batch_analyze_photos [("u", .returned (some [7])), ("v", .returned none),
        ("w", (.raised : FetchOutcome ℕ))]).processed = 3 ∧
    (batch_analyze_photos [("u", .returned (some [7])), ("v", .returned none),
        ("w", (.raised : FetchOutcome ℕ))]).faces_found = 1 ∧
    (batch_analyze_photos [("u", .returned (some [7])), ("v", .returned none),
        ("w", (.raised : FetchOutcome ℕ))]).failed = 1 := by
  obtain ⟨hp, hf, hb, -⟩ := batch_counts_contract
    [("u", .returned (some [7])), ("v", .returned none), ("w", (.raised : FetchOutcome ℕ))]
  exact ⟨by rw [hp]; rfl, by rw [hf]; simp [FetchOutcome.found], by rw [hb]; simp [FetchOutcome.bad]⟩

/-! ## C7: ingest identifier scheme -/

/-- C7: ingesting from an image URL that yielded `n ≥ 1` face vectors
appends one row per face under identifiers `photo_id#0 … photo_id#(n-1)`;
ingesting a single supplied vector appends one row under the bare
`photo_id`; and ingesting the same `photo_id` twice simply appends again —
no row is replaced (no implicit upsert). -/
theorem ingest_identifier_scheme (s : FaissState) (event photo url : String)
    (emb : List ℝ) (uf : Option (List (List ℝ))) (vs : List (List ℝ)) :
    (vs ≠ [] →
      ∃ s2, ingest s event photo (some url) none (some vs) = Except.ok (true, s2) ∧
        ∃ e2, s2.event_indices event = some e2 ∧
          e2.ids = (getOrCreate s event).ids ++
            (List.range vs.length).map (fun i => photo ++ "#" ++ toString i) ∧
          e2.vectors = (getOrCreate s event).vectors ++ vs) ∧
    (∀ uopt : Option String,
      ∃ s2, ingest s event photo uopt (some emb) uf = Except.ok (true, s2) ∧
        ∃ e2, s2.event_indices event = some e2 ∧
          e2.ids = (getOrCreate s event).ids ++ [photo]) ∧
    (∀ s2, ingest s event photo none (some emb) uf = Except.ok (true, s2) →
      ∀ s3, ingest s2 event photo none (some emb) uf = Except.ok (true, s3) →
        ∃ e3, s3.event_indices event = some e3 ∧
          e3.ids = ((getOrCreate s event).ids ++ [photo]) ++ [photo]) := by
  have haddlook : ∀ (st : FaissState) (vl : List (List ℝ)) (il : List String),
      (addEntries st event vl il).event_indices event =
        some { ids := (getOrCreate st event).ids ++ il,
               vectors := (getOrCreate st event).vectors ++ vl } := by
    intro st vl il
    rw [addEntries]
    simp
  refine ⟨?_, ?_, ?_⟩
  · intro hvs
    match vs, hvs with
    | v :: vtl, _ =>
      refine ⟨_, rfl, ?_⟩
      rw [haddlook]
      exact ⟨_, rfl, rfl, rfl⟩
  · intro uopt
    refine ⟨addEntries s event [normalizeVec emb] [photo], ?_, ?_⟩
    · cases uopt <;> rfl
    · rw [haddlook]
      exact ⟨_, rfl, rfl⟩
  · intro s2 h2 s3 h3
    have hs2 : s2 = addEntries s event [normalizeVec emb] [photo] := by
      have := h2
      rw [ingest] at this
      simp only [Except.ok.injEq, Prod.mk.injEq, true_and] at this
      exact this.symm
    have hs3 : s3 = addEntries s2 event [normalizeVec emb] [photo] := by
      have := h3
      rw [ingest] at this
      simp only [Except.ok.injEq, Prod.mk.injEq, true_and] at this
      exact this.symm
    subst hs2 hs3
    rw [haddlook]
    refine ⟨_, rfl, ?_⟩
    have hg2 : (getOrCreate (addEntries s event [normalizeVec emb] [photo]) event).ids =
        (getOrCreate s event).ids ++ [photo] := by
      rw [getOrCreate, haddlook]
      rfl
    rw [hg2]

/-- Witness for C7 on an empty store: URL ingest of two faces for `"p"`
stores `"p#0"`, `"p#1"`; vector ingest and double vector ingest of `"p"`
store the bare id, twice. -/
theorem ingest_identifier_scheme_witness :
    (∃ s2, ingest { event_indices := fun _ => none } "e" "p" (some "http://x") none
          (some [[1], [2]]) = Except.ok (true, s2) ∧
        ∃ e2, s2.event_indices "e" = some e2 ∧
          e2.ids = (getOrCreate { event_indices := fun _ => none } "e").ids ++
            (List.range ([[1], [2]] : List (List ℝ)).length).map
              (fun i => "p" ++ "#" ++ toString i) ∧
          e2.vectors = (getOrCreate { event_indices := fun _ => none } "e").vectors ++
            [[1], [2]]) ∧
    (∃ s2, ingest { event_indices := fun _ => none } "e" "p" none (some [1]) none =
          Except.ok (true, s2) ∧
        ∃ e2, s2.event_indices "e" = some e2 ∧
          e2.ids = (getOrCreate { event_indices := fun _ => none } "e").ids ++ ["p"]) :=
  ⟨(ingest_identifier_scheme { event_indices := fun _ => none } "e" "p" "http://x"
      [1] none [[1], [2]]).1 (by simp),
   (ingest_identifier_scheme { event_indices := fun _ => none } "e" "p" "http://x"
      [1] none [[1], [2]]).2.1 none⟩

/-! ## C8: empty or unknown scope -/

/-- C8: `match` on an event id with no index, or with an index holding zero
identifiers, returns `[]` for every query, `top_k` and threshold (and,
being a total function, never raises). -/
theorem match_empty_scope (s : FaissState) (event : String) (q : List ℝ) (k : ℕ)
    (th : ℝ) :
    (s.event_indices event = none → matchQuery s event q k th = []) ∧
    (∀ e, s.event_indices event = some e → e.ids = [] →
      matchQuery s event q k th = []) := by
  constructor
  · intro h
    rw [matchQuery, h]
  · intro e he hids
    rw [matchQuery, he]
    simp [hids]

/-- Witness for C8: an unknown event on the empty store, and a created but
empty event entry, both answer `[]`. -/
theorem match_empty_scope_witness :
    matchQuery { event_indices := fun _ => none } "x" [1] 5 0.35 = [] ∧
    matchQuery
      { event_indices := fun e => if e = "x" then some { ids := [], vectors := [] } else none }
      "x" [1] 5 0.35 = [] :=
  ⟨(match_empty_scope { event_indices := fun _ => none } "x" [1] 5 0.35).1 rfl,
   (match_empty_scope
      { event_indices := fun e => if e = "x" then some { ids := [], vectors := [] } else none }
      "x" [1] 5 0.35).2 { ids := [], vectors := [] } (by simp) rfl⟩

/-! ## Grouping-fold lemmas (shared by the `match` claims) -/

lemma mem_assocUpdateMax :
    ∀ (acc : List (String × ℝ)) (key : String) (sc : ℝ) (p : String × ℝ),
      p ∈ assocUpdateMax acc key sc → (∀ q ∈ acc, 0 ≤ q.2) → 0 ≤ p.2 := by
  intro acc
  induction acc with
  | nil =>
    intro key sc p hp hacc
    rw [assocUpdateMax] at hp
    rcases List.mem_singleton.mp hp with rfl
    show (0 : ℝ) ≤ max 0.0 sc
    exact le_max_of_le_left (by norm_num)
  | cons kv rest ih =>
    intro key sc p hp hacc
    obtain ⟨k, v⟩ := kv
    rw [assocUpdateMax] at hp
    by_cases hk : k = key
    · rw [if_pos hk] at hp
      rcases List.mem_cons.mp hp with rfl | hmem
      · have hv : (0 : ℝ) ≤ v := hacc (k, v) (List.mem_cons_self _ _)
        show (0 : ℝ) ≤ max v sc
        exact le_max_of_le_left hv
      · exact hacc p (List.mem_cons_of_mem _ hmem)
    · rw [if_neg hk] at hp
      rcases List.mem_cons.mp hp with rfl | hmem
      · exact hacc _ (List.mem_cons_self _ _)
      · exact ih key sc p hmem (fun q hq => hacc q (List.mem_cons_of_mem _ hq))

lemma groupFold_values_nonneg {rs : List (String × ℝ)} :
    ∀ {acc : List (String × ℝ)}, (∀ q ∈ acc, 0 ≤ q.2) →
      ∀ p ∈ rs.foldl groupStep acc, 0 ≤ p.2 := by
  induction rs with
  | nil => intro acc hacc p hp; exact hacc p hp
  | cons r rtl ih =>
    intro acc hacc p hp
    rw [List.foldl_cons] at hp
    exact ih (fun q hq => mem_assocUpdateMax acc (baseId r.1) r.2 q hq hacc) p hp

/-! ## C10: the `0.0` grouping default clamps scores -/

/-- C10: because the grouping loop accumulates with
`max(grouped.get(base_id, 0.0), score)`, every score reported by `match`
is at least `0.0` — an entry whose threshold-passing cosine score is
negative (possible when `threshold < 0`) is reported clamped up to `0.0`
rather than with its true score. -/
theorem match_grouped_scores_nonneg (s : FaissState) (event : String) (q : List ℝ)
    (k : ℕ) (th : ℝ) :
    ∀ b sc, (b, sc) ∈ matchQuery s event q k th → 0 ≤ sc := by
  intro b sc hmem
  cases he : s.event_indices event with
  | none =>
    simp only [matchQuery, he] at hmem
    exact absurd hmem (List.not_mem_nil _)
  | some entry =>
    simp only [matchQuery, he] at hmem
    by_cases hlen : entry.ids.length = 0
    · rw [if_pos hlen] at hmem
      exact absurd hmem (List.not_mem_nil _)
    · rw [if_neg hlen, List.mem_insertionSort] at hmem
      exact groupFold_values_nonneg (fun q hq => absurd hq (List.not_mem_nil _)) (b, sc) hmem

/-! ## Grouping characterization lemmas (for the grouping claim) -/

lemma assocLookup_updateMax (acc : List (String × ℝ)) (key : String) (sc : ℝ)
    (b : String) :
    assocLookup (assocUpdateMax acc key sc) b =
      if key = b then some (max ((assocLookup acc b).getD 0) sc)
      else assocLookup acc b := by
  induction acc with
  | nil =>
    simp only [assocUpdateMax, assocLookup, Option.getD_none]
    by_cases h : key = b
    · rw [if_pos h, if_pos h]
      norm_num
    · rw [if_neg h, if_neg h]
  | cons kv rest ih =>
    obtain ⟨k, v⟩ := kv
    rw [assocUpdateMax]
    by_cases hk : k = key
    · rw [if_pos hk]
      subst hk
      by_cases hb : k = b
      · subst hb
        simp only [assocLookup, eq_self_iff_true, if_true, Option.getD_some]
      · simp only [assocLookup, hb, if_false]
    · rw [if_neg hk]
      by_cases hb : k = b
      · subst hb
        have hkb : ¬ key = k := fun h => hk h.symm
        simp only [assocLookup, eq_self_iff_true, if_true, hkb, if_false]
      · simp only [assocLookup, hb, if_false]
        exact ih

lemma mem_keys_updateMax (acc : List (String × ℝ)) (key : String) (sc : ℝ) (x : String) :
    x ∈ (assocUpdateMax acc key sc).map Prod.fst ↔
      x ∈ acc.map Prod.fst ∨ x = key := by
  induction acc with
  | nil => simp [assocUpdateMax]
  | cons kv rest ih =>
    obtain ⟨k, v⟩ := kv
    rw [assocUpdateMax]
    by_cases hk : k = key
    · subst hk
      rw [if_pos rfl]
      simp only [List.map_cons, List.mem_cons]
      tauto
    · rw [if_neg hk]
      simp only [List.map_cons, List.mem_cons, ih]
      tauto

lemma nodup_keys_updateMax (acc : List (String × ℝ)) (key : String) (sc : ℝ)
    (h : (acc.map Prod.fst).Nodup) :
    ((assocUpdateMax acc key sc).map Prod.fst).Nodup := by
  induction acc with
  | nil => simp [assocUpdateMax]
  | cons kv rest ih =>
    obtain ⟨k, v⟩ := kv
    rw [List.map_cons, List.nodup_cons] at h
    rw [assocUpdateMax]
    by_cases hk : k = key
    · rw [if_pos hk, List.map_cons]
      rw [List.nodup_cons]
      exact h
    · rw [if_neg hk, List.map_cons, List.nodup_cons]
      refine ⟨?_, ih h.2⟩
      intro hmem
      rcases (mem_keys_updateMax rest key sc k).mp hmem with hm | hm
      · exact h.1 hm
      · exact hk hm

lemma nodup_keys_groupFold (rs : List (String × ℝ)) :
    ∀ acc, (acc.map Prod.fst).Nodup → ((rs.foldl groupStep acc).map Prod.fst).Nodup := by
  induction rs with
  | nil => exact fun _ h => h
  | cons r rtl ih =>
    intro acc h
    rw [List.foldl_cons]
    exact ih _ (nodup_keys_updateMax acc (baseId r.1) r.2 h)

lemma scoresFor_cons (b : String) (r : String × ℝ) (rtl : List (String × ℝ)) :
    scoresFor b (r :: rtl) =
      if baseId r.1 = b then r.2 :: scoresFor b rtl else scoresFor b rtl := by
  rw [scoresFor, scoresFor]
  by_cases hb : baseId r.1 = b
  · rw [if_pos hb, List.filter_cons_of_pos (by rw [decide_eq_true_eq]; exact hb),
      List.map_cons]
  · rw [if_neg hb, List.filter_cons_of_neg (by rw [decide_eq_true_eq]; exact hb)]

lemma assocLookup_groupFold (rs : List (String × ℝ)) :
    ∀ (acc : List (String × ℝ)) (b : String),
      assocLookup (rs.foldl groupStep acc) b =
        (scoresFor b rs).foldl (fun o s => some (max (o.getD 0) s)) (assocLookup acc b) := by
  induction rs with
  | nil => intro acc b; rfl
  | cons r rtl ih =>
    intro acc b
    rw [List.foldl_cons, ih, scoresFor_cons]
    by_cases hb : baseId r.1 = b
    · rw [if_pos hb, List.foldl_cons]
      congr 1
      rw [groupStep, assocLookup_updateMax, if_pos hb]
    · rw [if_neg hb]
      congr 1
      rw [groupStep, assocLookup_updateMax, if_neg hb]

lemma foldl_optmax_some (ss : List ℝ) : ∀ m : ℝ,
    ss.foldl (fun o s => some (max (o.getD 0) s)) (some m) = some (ss.foldl max m) := by
  induction ss with
  | nil => intro m; rfl
  | cons s tl ih =>
    intro m
    rw [List.foldl_cons, List.foldl_cons]
    show tl.foldl (fun o s => some (max (o.getD 0) s)) (some (max m s)) =
      some (tl.foldl max (max m s))
    exact ih (max m s)

lemma foldl_optmax_of_ne_nil {ss : List ℝ} (h : ss ≠ []) :
    ss.foldl (fun o s => some (max (o.getD 0) s)) none = some (ss.foldl max 0) := by
  match ss, h with
  | s :: tl, _ =>
    rw [List.foldl_cons, List.foldl_cons]
    show tl.foldl (fun o s => some (max (o.getD 0) s)) (some (max (Option.getD none 0) s)) =
      some (tl.foldl max (max 0 s))
    rw [Option.getD_none]
    exact foldl_optmax_some tl (max 0 s)

lemma foldl_max_init_le (ss : List ℝ) : ∀ a : ℝ, a ≤ ss.foldl max a := by
  induction ss with
  | nil => intro a; exact le_refl a
  | cons s tl ih =>
    intro a
    rw [List.foldl_cons]
    exact le_trans (le_max_left a s) (ih (max a s))

lemma le_foldl_max (ss : List ℝ) : ∀ (a x : ℝ), x ∈ ss → x ≤ ss.foldl max a := by
  induction ss with
  | nil => intro a x hx; exact absurd hx (List.not_mem_nil x)
  | cons s tl ih =>
    intro a x hx
    rw [List.foldl_cons]
    rcases List.mem_cons.mp hx with rfl | hx
    · exact le_trans (le_max_right a x) (foldl_max_init_le tl (max a x))
    · exact ih (max a s) x hx

lemma foldl_max_eq_or_mem (ss : List ℝ) : ∀ a : ℝ,
    ss.foldl max a = a ∨ ss.foldl max a ∈ ss := by
  induction ss with
  | nil => intro a; exact Or.inl rfl
  | cons s tl ih =>
    intro a
    rw [List.foldl_cons]
    rcases ih (max a s) with h | h
    · rw [h]
      rcases max_choice a s with h2 | h2
      · exact Or.inl h2
      · exact Or.inr (by rw [h2]; exact List.mem_cons_self s tl)
    · exact Or.inr (List.mem_cons_of_mem s h)

lemma assocLookup_mem_iff : ∀ (l : List (String × ℝ)), (l.map Prod.fst).Nodup →
    ∀ (b : String) (sc : ℝ), ((b, sc) ∈ l ↔ assocLookup l b = some sc) := by
  intro l
  induction l with
  | nil => intro _ b sc; simp [assocLookup]
  | cons kv rest ih =>
    intro h b sc
    obtain ⟨k, v⟩ := kv
    rw [List.map_cons, List.nodup_cons] at h
    rw [assocLookup]
    by_cases hk : k = b
    · subst hk
      rw [if_pos rfl]
      constructor
      · intro hm
        rcases List.mem_cons.mp hm with heq | hm
        · rw [Prod.mk.injEq] at heq
          rw [heq.2]
        · exact absurd (List.mem_map.mpr ⟨(k, sc), hm, rfl⟩) h.1
      · intro hl
        rw [Option.some.injEq] at hl
        rw [← hl]
        exact List.mem_cons_self _ _
    · rw [if_neg hk]
      rw [← ih h.2 b sc]
      constructor
      · intro hm
        rcases List.mem_cons.mp hm with heq | hm
        · exfalso
          rw [Prod.mk.injEq] at heq
          exact hk heq.1.symm
        · exact hm
      · exact fun hm => List.mem_cons_of_mem _ hm

lemma enum_swap_map_zip (ids : List String) (scores : List ℝ)
    (h : ids.length = scores.length) :
    (scores.enum.map (fun p => (p.2, p.1))).map (fun hh => (ids.getD hh.2 "", hh.1)) =
      ids.zip scores := by
  rw [List.map_map]
  apply List.ext_getElem
  · rw [List.length_map, List.enum_length, List.length_zip, h, min_self]
  · intro i h1 h2
    rw [List.length_map, List.enum_length] at h1
    have hi : i < ids.length := by rw [h]; exact h1
    have hgd : ids.getD i "" = ids.get ⟨i, hi⟩ := List.getD_eq_getElem ids "" hi
    rw [List.getElem_map, List.getElem_enum, List.getElem_zip]
    show (ids.getD i "", scores.get ⟨i, h1⟩) = (ids.get ⟨i, hi⟩, scores.get ⟨i, h1⟩)
    rw [hgd]

/-! ## C2: grouping correctness of `match` (amended) -/

/-- C2 (amended): provided the threshold is non-negative and the scope's
entry count is at most `top_k` (so the exact top-`k` search covers every
stored row), `match` returns at most one entry per base id, sorted by
score descending; a base id appears exactly when it has at least one
threshold-passing entry, and its reported score is the maximum of its
passing entries' scores.  (Without the provisos the original claim fails:
with a negative threshold the `0.0` grouping default can exceed every
passing score, and with a small `top_k` a passing entry can be cut off
before grouping.) -/
theorem match_grouping_amended (s : FaissState) (event : String) (q : List ℝ)
    (k : ℕ) (th : ℝ) (entry : EventEntry)
    (he : s.event_indices event = some entry)
    (hlen : entry.ids.length = entry.vectors.length)
    (hk : entry.ids.length ≤ k)
    (hth : 0 ≤ th) :
    ((matchQuery s event q k th).map Prod.fst).Nodup ∧
    (matchQuery s event q k th).Pairwise (fun a b => b.2 ≤ a.2) ∧
    (∀ b sc, (b, sc) ∈ matchQuery s event q k th →
      sc ∈ passingScores entry q th b ∧ ∀ x ∈ passingScores entry q th b, x ≤ sc) ∧
    (∀ b, passingScores entry q th b ≠ [] →
      ∃ sc, (b, sc) ∈ matchQuery s event q k th) := by
  by_cases hids : entry.ids.length = 0
  · have hq : matchQuery s event q k th = [] := by
      simp only [matchQuery, he]
      rw [if_pos hids]
    have hids2 : entry.ids = [] := List.length_eq_zero.mp hids
    have hps : ∀ b, passingScores entry q th b = [] := by
      intro b
      rw [passingScores, hids2]
      rfl
    rw [hq]
    refine ⟨by simp, List.Pairwise.nil, ?_, ?_⟩
    · intro b sc hmem
      exact absurd hmem (List.not_mem_nil _)
    · intro b hb
      exact absurd (hps b) hb
  · have hmin : min k entry.ids.length = entry.ids.length := min_eq_right hk
    have hlenpairs :
        ((entry.vectors.map (fun v => dotList (normalizeVec q) v)).enum.map
          (fun p => (p.2, p.1))).length = entry.ids.length := by
      rw [List.length_map, List.enum_length, List.length_map, hlen]
    have htop : searchTopK entry.vectors (normalizeVec q) (min k entry.ids.length) =
        List.insertionSort hitGE
          ((entry.vectors.map (fun v => dotList (normalizeVec q) v)).enum.map
            (fun p => (p.2, p.1))) := by
      rw [searchTopK, hmin]
      apply List.take_of_length_le
      rw [List.length_insertionSort, hlenpairs]
    have hq : matchQuery s event q k th =
        List.insertionSort pairGE
          (List.foldl groupStep []
            ((((entry.vectors.map (fun v => dotList (normalizeVec q) v)).enum.map
                  (fun p => (p.2, p.1))).insertionSort hitGE |>.filter
                (fun h => decide (th ≤ h.1))).map
              (fun h => (entry.ids.getD h.2 "", h.1)))) := by
      simp only [matchQuery, he]
      rw [if_neg hids, htop]
    set pairs := (entry.vectors.map (fun v => dotList (normalizeVec q) v)).enum.map
      (fun p => (p.2, p.1)) with hpairs
    set hits := List.insertionSort hitGE pairs with hhits
    set results := (hits.filter (fun h => decide (th ≤ h.1))).map
      (fun h => (entry.ids.getD h.2 "", h.1)) with hresults
    set resultsP := (pairs.filter (fun h => decide (th ≤ h.1))).map
      (fun h => (entry.ids.getD h.2 "", h.1)) with hresultsP
    set grouped := results.foldl groupStep [] with hgrouped
    have hpermHits : List.Perm hits pairs := List.perm_insertionSort hitGE pairs
    have hpermR : List.Perm results resultsP := (hpermHits.filter _).map _
    have hzip : pairs.map (fun hh => (entry.ids.getD hh.2 "", hh.1)) =
        entry.ids.zip (entry.vectors.map (fun v => dotList (normalizeVec q) v)) :=
      enum_swap_map_zip _ _ (by rw [List.length_map]; exact hlen)
    have hresP2 : resultsP =
        (entry.ids.zip (entry.vectors.map (fun v => dotList (normalizeVec q) v))).filter
          (fun p => decide (th ≤ p.2)) := by
      rw [hresultsP, ← hzip]
      exact (@List.filter_map (ℝ × ℕ) (String × ℝ) (fun r => decide (th ≤ r.2))
        (fun hh => (entry.ids.getD hh.2 "", hh.1)) pairs).symm
    have hpermSS : ∀ b, List.Perm (scoresFor b results) (passingScores entry q th b) := by
      intro b
      rw [passingScores, ← hresP2, scoresFor, scoresFor]
      exact (hpermR.filter _).map _
    have hnodupG : (grouped.map Prod.fst).Nodup :=
      nodup_keys_groupFold results [] (by simp)
    have hpermSort : List.Perm (List.insertionSort pairGE grouped) grouped :=
      List.perm_insertionSort pairGE grouped
    have hresth : ∀ r ∈ results, th ≤ r.2 := by
      intro r hr
      rw [hresults] at hr
      obtain ⟨hh, hhh, rfl⟩ := List.mem_map.mp hr
      have hpass := (List.mem_filter.mp hhh).2
      rw [decide_eq_true_eq] at hpass
      exact hpass
    have hth2 : ∀ b, ∀ x ∈ scoresFor b results, th ≤ x := by
      intro b x hx
      rw [scoresFor] at hx
      obtain ⟨r, hr, rfl⟩ := List.mem_map.mp hx
      exact hresth r (List.mem_filter.mp hr).1
    refine ⟨?_, ?_, ?_, ?_⟩
    · rw [hq]
      exact ((hpermSort.map Prod.fst).nodup_iff).mpr hnodupG
    · rw [hq]
      exact List.sorted_insertionSort pairGE grouped
    · intro b sc hmem
      rw [hq, List.mem_insertionSort] at hmem
      have hlook : assocLookup grouped b = some sc :=
        (assocLookup_mem_iff grouped hnodupG b sc).mp hmem
      rw [hgrouped, assocLookup_groupFold] at hlook
      simp only [assocLookup] at hlook
      by_cases hss : scoresFor b results = []
      · rw [hss] at hlook
        exact absurd hlook (by simp)
      · rw [foldl_optmax_of_ne_nil hss, Option.some.injEq] at hlook
        have hmax_mem : sc ∈ scoresFor b results := by
          rcases foldl_max_eq_or_mem (scoresFor b results) 0 with h0 | hmem2
          · obtain ⟨s1, tl, hss2⟩ := List.exists_cons_of_ne_nil hss
            have h1 : s1 ≤ 0 := by
              have hle := le_foldl_max (scoresFor b results) 0 s1
                (by rw [hss2]; exact List.mem_cons_self _ _)
              rw [h0] at hle
              exact hle
            have h2 : th ≤ s1 := hth2 b s1 (by rw [hss2]; exact List.mem_cons_self _ _)
            have hs10 : s1 = 0 := le_antisymm h1 (le_trans hth h2)
            rw [← hlook, h0, ← hs10, hss2]
            exact List.mem_cons_self _ _
          · rw [hlook] at hmem2
            exact hmem2
        refine ⟨(hpermSS b).mem_iff.mp hmax_mem, ?_⟩
        intro x hx
        rw [← hlook]
        exact le_foldl_max _ 0 x ((hpermSS b).mem_iff.mpr hx)
    · intro b hbne
      have hssne : scoresFor b results ≠ [] := by
        intro h0
        apply hbne
        have hlen0 := (hpermSS b).length_eq
        rw [h0] at hlen0
        exact List.length_eq_zero.mp hlen0.symm
      have hlook : assocLookup grouped b = some ((scoresFor b results).foldl max 0) := by
        rw [hgrouped, assocLookup_groupFold]
        simp only [assocLookup]
        exact foldl_optmax_of_ne_nil hssne
      refine ⟨(scoresFor b results).foldl max 0, ?_⟩
      rw [hq, List.mem_insertionSort]
      exact (assocLookup_mem_iff grouped hnodupG b _).mpr hlook

/-! ## Concrete evaluation of `match` on the two-face scope -/

lemma normalizeVec_one : normalizeVec [1] = [1 / (1 + 1e-8)] := by
  simp [normalizeVec, l2norm_single]

lemma cex_scores :
    cexEntry.vectors.map (fun v => dotList (normalizeVec [1]) v) =
      [1 / (1 + 1e-8) * -1, 1 / (1 + 1e-8) * (-1/2)] := by
  rw [cexEntry, normalizeVec_one]
  simp [dotList_single]

lemma matchQuery_cexState_eval :
    matchQuery cexState "e" [1] 5 (-2) = [("photo1", 0)] := by
  have he : cexState.event_indices "e" = some cexEntry := by
    show (if ("e" : String) = "e" then some cexEntry else none) = some cexEntry
    rw [if_pos rfl]
  have hids : ¬ cexEntry.ids.length = 0 := by
    rw [cexEntry]
    norm_num
  have hmin : min 5 cexEntry.ids.length = 2 := by
    rw [cexEntry]
    rfl
  have htopk : searchTopK cexEntry.vectors (normalizeVec [1]) 2 =
      [(1 / (1 + 1e-8) * (-1/2), 1), (1 / (1 + 1e-8) * -1, 0)] := by
    rw [searchTopK, cex_scores]
    have henum : (([1 / (1 + 1e-8) * -1, 1 / (1 + 1e-8) * (-1/2)] : List ℝ).enum.map
        (fun p => (p.2, p.1))) =
          [(1 / (1 + 1e-8) * -1, 0), (1 / (1 + 1e-8) * (-1/2), 1)] := rfl
    rw [henum]
    simp only [List.insertionSort, List.orderedInsert]
    rw [if_neg (show ¬ hitGE (1 / (1 + 1e-8) * -1, 0) (1 / (1 + 1e-8) * (-1/2), 1) by
      rw [hitGE]
      norm_num)]
    rfl
  have hfil : (([(1 / (1 + 1e-8) * (-1/2), 1), (1 / (1 + 1e-8) * -1, 0)] :
      List (ℝ × ℕ)).filter (fun h => decide ((-2 : ℝ) ≤ h.1))) =
        [(1 / (1 + 1e-8) * (-1/2), 1), (1 / (1 + 1e-8) * -1, 0)] := by
    rw [List.filter_cons_of_pos (by rw [decide_eq_true_eq]; norm_num),
      List.filter_cons_of_pos (by rw [decide_eq_true_eq]; norm_num)]
    rfl
  have hmap : (([(1 / (1 + 1e-8) * (-1/2), 1), (1 / (1 + 1e-8) * -1, 0)] :
      List (ℝ × ℕ)).map (fun h => (cexEntry.ids.getD h.2 "", h.1))) =
        [("photo1#1", 1 / (1 + 1e-8) * (-1/2)), ("photo1#0", 1 / (1 + 1e-8) * -1)] := by
    rw [cexEntry]
    rfl
  have hfold : List.foldl groupStep []
      [("photo1#1", 1 / (1 + 1e-8) * (-1/2)), ("photo1#0", 1 / (1 + 1e-8) * -1)] =
        [("photo1", 0)] := by
    have hb1 : baseId "photo1#1" = "photo1" := by decide
    have hb0 : baseId "photo1#0" = "photo1" := by decide
    simp only [List.foldl_cons, List.foldl_nil, groupStep, hb1, hb0, assocUpdateMax,
      eq_self_iff_true, if_true]
    rw [max_eq_left (by norm_num), max_eq_left (by norm_num)]
    norm_num
  simp only [matchQuery, he]
  rw [if_neg hids, hmin, htopk, hfil, hmap, hfold]
  simp [List.insertionSort, List.orderedInsert]

lemma passingScores_cexEntry_eval :
    passingScores cexEntry [1] (-2) "photo1" =
      [1 / (1 + 1e-8) * -1, 1 / (1 + 1e-8) * (-1/2)] := by
  rw [passingScores]
  have hz : cexEntry.ids.zip (cexEntry.vectors.map (fun v => dotList (normalizeVec [1]) v)) =
      [("photo1#0", 1 / (1 + 1e-8) * -1), ("photo1#1", 1 / (1 + 1e-8) * (-1/2))] := by
    rw [cex_scores, cexEntry]
    rfl
  rw [hz]
  rw [List.filter_cons_of_pos (by rw [decide_eq_true_eq]; norm_num),
    List.filter_cons_of_pos (by rw [decide_eq_true_eq]; norm_num)]
  rw [scoresFor]
  rw [List.filter_cons_of_pos (by rw [decide_eq_true_eq]; decide),
    List.filter_cons_of_pos (by rw [decide_eq_true_eq]; decide)]
  rfl

lemma top_scores :
    topEntry.vectors.map (fun v => dotList (normalizeVec [1]) v) =
      [1 / (1 + 1e-8) * 1, 1 / (1 + 1e-8) * (1/2)] := by
  rw [topEntry, normalizeVec_one]
  simp [dotList_single]

lemma matchQuery_topState_eval :
    matchQuery topState "e" [1] 1 (1/4) = [("a", 1 / (1 + 1e-8) * 1)] := by
  have he : topState.event_indices "e" = some topEntry := by
    show (if ("e" : String) = "e" then some topEntry else none) = some topEntry
    rw [if_pos rfl]
  have hids : ¬ topEntry.ids.length = 0 := by
    rw [topEntry]
    norm_num
  have hmin : min 1 topEntry.ids.length = 1 := by
    rw [topEntry]
    rfl
  have htopk : searchTopK topEntry.vectors (normalizeVec [1]) 1 =
      [(1 / (1 + 1e-8) * 1, 0)] := by
    rw [searchTopK, top_scores]
    have henum : (([1 / (1 + 1e-8) * 1, 1 / (1 + 1e-8) * (1/2)] : List ℝ).enum.map
        (fun p => (p.2, p.1))) =
          [(1 / (1 + 1e-8) * 1, 0), (1 / (1 + 1e-8) * (1/2), 1)] := rfl
    rw [henum]
    simp only [List.insertionSort, List.orderedInsert]
    rw [if_pos (show hitGE (1 / (1 + 1e-8) * 1, 0) (1 / (1 + 1e-8) * (1/2), 1) by
      rw [hitGE]
      norm_num)]
    rfl
  have hfil : (([(1 / (1 + 1e-8) * 1, 0)] : List (ℝ × ℕ)).filter
      (fun h => decide ((1/4 : ℝ) ≤ h.1))) = [(1 / (1 + 1e-8) * 1, 0)] := by
    rw [List.filter_cons_of_pos (by rw [decide_eq_true_eq]; norm_num)]
    rfl
  have hmap : (([(1 / (1 + 1e-8) * 1, 0)] : List (ℝ × ℕ)).map
      (fun h => (topEntry.ids.getD h.2 "", h.1))) = [("a#0", 1 / (1 + 1e-8) * 1)] := by
    rw [topEntry]
    rfl
  have hfold : List.foldl groupStep [] [("a#0", 1 / (1 + 1e-8) * 1)] =
      [("a", 1 / (1 + 1e-8) * 1)] := by
    have hb : baseId "a#0" = "a" := by decide
    simp only [List.foldl_cons, List.foldl_nil, groupStep, hb, assocUpdateMax]
    rw [max_eq_right (by norm_num)]
  simp only [matchQuery, he]
  rw [if_neg hids, hmin, htopk, hfil, hmap, hfold]
  simp [List.insertionSort, List.orderedInsert]

lemma passingScores_topEntry_eval :
    passingScores topEntry [1] (1/4) "b" = [1 / (1 + 1e-8) * (1/2)] := by
  rw [passingScores]
  have hz : topEntry.ids.zip (topEntry.vectors.map (fun v => dotList (normalizeVec [1]) v)) =
      [("a#0", 1 / (1 + 1e-8) * 1), ("b#0", 1 / (1 + 1e-8) * (1/2))] := by
    rw [top_scores, topEntry]
    rfl
  rw [hz]
  rw [List.filter_cons_of_pos (by rw [decide_eq_true_eq]; norm_num),
    List.filter_cons_of_pos (by rw [decide_eq_true_eq]; norm_num)]
  rw [scoresFor]
  rw [List.filter_cons_of_neg (by rw [Bool.not_eq_true, decide_eq_false_iff_not]; decide),
    List.filter_cons_of_pos (by rw [decide_eq_true_eq]; decide)]
  rfl

/-- C2 counterexample: two concrete refutations of the claim as stated.
First, in the scope `cexState` (entries `photo1#0`, `photo1#1`, cosine
scores both negative but above the threshold `-2`), `match` reports
`photo1` with score `0`, while every threshold-passing score of `photo1`
is negative — the reported score is not the maximum score among that id's
entries.  Second, in the scope `topState` with `top_k = 1`, the base id
`"b"` has a threshold-passing entry but no result at all — the result
does not contain one entry per passing base id. -/
theorem match_grouping_claim_counterexample :
    (matchQuery cexState "e" [1] 5 (-2) = [("photo1", 0)] ∧
      passingScores cexEntry [1] (-2) "photo1" ≠ [] ∧
      ∀ x ∈ passingScores cexEntry [1] (-2) "photo1", x < 0) ∧
    (matchQuery topState "e" [1] 1 (1/4) = [("a", 1 / (1 + 1e-8) * 1)] ∧
      passingScores topEntry [1] (1/4) "b" ≠ [] ∧
      ∀ p ∈ matchQuery topState "e" [1] 1 (1/4), p.1 ≠ "b") := by
  refine ⟨⟨matchQuery_cexState_eval, ?_, ?_⟩, ⟨matchQuery_topState_eval, ?_, ?_⟩⟩
  · rw [passingScores_cexEntry_eval]
    simp
  · rw [passingScores_cexEntry_eval]
    intro x hx
    rcases List.mem_cons.mp hx with rfl | hx
    · norm_num
    · rcases List.mem_cons.mp hx with rfl | hx
      · norm_num
      · exact absurd hx (List.not_mem_nil x)
  · rw [passingScores_topEntry_eval]
    simp
  · rw [matchQuery_topState_eval]
    intro p hp
    rcases List.mem_cons.mp hp with rfl | hp
    · decide
    · exact absurd hp (List.not_mem_nil p)

/-- Witness for the amended C2 on a concrete scope with positive scores
(`photo1#0` at `≈ 1`, `photo1#1` at `≈ 0.5`, threshold `0.25 ≥ 0`,
`top_k = 20 ≥ 2`). -/
theorem match_grouping_amended_witness :
    ((matchQuery posState "e" [1] 20 0.25).map Prod.fst).Nodup ∧
    (matchQuery posState "e" [1] 20 0.25).Pairwise (fun a b => b.2 ≤ a.2) ∧
    (∀ b sc, (b, sc) ∈ matchQuery posState "e" [1] 20 0.25 →
      sc ∈ passingScores posEntry [1] 0.25 b ∧
        ∀ x ∈ passingScores posEntry [1] 0.25 b, x ≤ sc) ∧
    (∀ b, passingScores posEntry [1] 0.25 b ≠ [] →
      ∃ sc, (b, sc) ∈ matchQuery posState "e" [1] 20 0.25) :=
  match_grouping_amended posState "e" [1] 20 0.25 posEntry
    (by show (if ("e" : String) = "e" then some posEntry else none) = some posEntry
        rw [if_pos rfl])
    rfl
    (by rw [posEntry]; norm_num)
    (by norm_num)

/-- Witness for C10: the concrete negative-score scope where the reported
grouped score is the clamped `0`. -/
theorem match_grouped_scores_nonneg_witness :
    ("photo1", (0 : ℝ)) ∈ matchQuery cexState "e" [1] 5 (-2) ∧ (0 : ℝ) ≤ 0 :=
  ⟨by rw [matchQuery_cexState_eval]; exact List.mem_singleton_self _,
   match_grouped_scores_nonneg cexState "e" [1] 5 (-2) "photo1" 0
     (by rw [matchQuery_cexState_eval]; exact List.mem_singleton_self _)⟩

end VBIS
